import Mathlib

/-!
Shallow embedding of the dependency-resolution and metadata components of
the vendored `pkg_resources` and `importlib_metadata` packages
(src/src/main/python/pybuilder/_vendor/...), together with proofs about the
spec's claims on them.

Modelling conventions:
* Python strings are Lean `String`s; byte contents are `List Nat`.
* Machine behaviour that the spec declares external (PEP 440 version
  parsing/ordering, PEP 508 marker evaluation) is modelled by small
  executable stand-ins, documented at each definition.
* Exceptions become `Except`/explicit error results; in-place mutation
  becomes explicit state passing.
-/

namespace PkgResources

/-- Generic association-list lookup with an explicit boolean key equality,
modelling Python `dict.get`: the stored keys are probed in insertion
order. -/
def alookup (beq : κ → κ → Bool) (k : κ) : List (κ × β) → Option β
  | [] => none
  | (k', v) :: rest => if beq k' k then some v else alookup beq k rest

/-- Generic association-list update, modelling Python `dict.__setitem__`:
replace the value at the first key equal to `k`, else append a new entry
(dicts preserve insertion order). -/
def aset (beq : κ → κ → Bool) (k : κ) (v : β) : List (κ × β) → List (κ × β)
  | [] => [(k, v)]
  | (k', v') :: rest =>
    if beq k' k then (k', v) :: rest else (k', v') :: aset beq k v rest

/-- First `some` produced by `f` along the list (Python loop-with-break). -/
def firstSome (f : α → Option β) : List α → Option β
  | [] => none
  | a :: rest =>
    match f a with
    | some b => some b
    | none => firstSome f rest

/-- Worker for `replaceRuns`; `inRun` records whether the previous
character was part of a replaced run. -/
def replaceRunsAux (bad : Char → Bool) (rep : Char) : Bool → List Char → List Char
  | _, [] => []
  | inRun, c :: cs =>
    if bad c then
      (if inRun then [] else [rep]) ++ replaceRunsAux bad rep true cs
    else c :: replaceRunsAux bad rep false cs

/-- Replace every maximal run of characters satisfying `bad` by the single
character `rep`: the effect of Python `re.sub('[bad]+', rep, s)` used by
`safe_name` and `safe_extra`. -/
def replaceRuns (bad : Char → Bool) (rep : Char) (cs : List Char) : List Char :=
  replaceRunsAux bad rep false cs

/-- Split a character list at every occurrence of `sep`, keeping empty
pieces: Python `str.split(sep)` for a one-character separator. -/
def splitOnChar (sep : Char) : List Char → List (List Char)
  | [] => [[]]
  | c :: cs =>
    if c == sep then [] :: splitOnChar sep cs
    else
      match splitOnChar sep cs with
      | [] => [[c]]
      | g :: gs => (c :: g) :: gs

/-- String-level `splitOnChar`. -/
def strSplitOnChar (sep : Char) (s : String) : List String :=
  (splitOnChar sep s.data).map String.mk

/-- Python `str.lower()` on the ASCII strings the source handles. -/
def strToLower (s : String) : String :=
  String.mk (s.data.map Char.toLower)

/-- Python `str.startswith`. -/
def strStartsWith (s pre : String) : Bool :=
  pre.data.isPrefixOf s.data

/-- Python `str.endswith`. -/
def strEndsWith (s suf : String) : Bool :=
  suf.data.reverse.isPrefixOf s.data.reverse

/-- Python `str.replace(a, b)` for one-character arguments. -/
def charReplace (a b : Char) (s : String) : String :=
  String.mk (s.data.map (fun c => if c == a then b else c))

/-- Python `int()` of a nonempty decimal digit string. -/
def natOfDigits (cs : List Char) : Nat :=
  cs.foldl (fun acc c => acc * 10 + (c.toNat - 48)) 0

/-- Characters of Python regex class `[A-Za-z0-9]` (the source's patterns are
ASCII-only classes). -/
def isAsciiAlnum (c : Char) : Bool :=
  (('A' ≤ c && c ≤ 'Z') || ('a' ≤ c && c ≤ 'z') || ('0' ≤ c && c ≤ '9'))

/-- Translation of `safe_name` (pkg_resources line 1555): any run of
non-alphanumeric/`.` characters is replaced with a single `-`. -/
def safe_name (name : String) : String :=
  String.mk (replaceRuns (fun c => !(isAsciiAlnum c || c == '.')) '-' name.data)

/-- Translation of `safe_extra` (pkg_resources line 1607): any run of
characters outside `[A-Za-z0-9.-]` is replaced with a single `_`, and the
result is lowercased. -/
def safe_extra (extra : String) : String :=
  strToLower (String.mk (replaceRuns
    (fun c => !(isAsciiAlnum c || c == '.' || c == '-')) '_' extra.data))

/-- Model of the external packaging library's parsed version values (spec §1
declares the full PEP 440 comparison algorithm out of scope).  A version is
an abstract numeric rank plus a prerelease flag; a prerelease orders
strictly below the non-prerelease version of the same rank.  The concrete
versions of the claims map as 0.5 ↦ 50, 0.9 ↦ 90, 1.0 ↦ 100, preserving
their PEP 440 order. -/
structure Version where
  rank : Int
  isPrerelease : Bool
deriving DecidableEq

/-- Numeric key whose lexicographic order realises the modelled version
order (prerelease strictly below final at equal rank). -/
def Version.okey (v : Version) : Int × Nat :=
  (v.rank, if v.isPrerelease then 0 else 1)

/-- Comparator for modelled versions. -/
def Version.vcmp (a b : Version) : Ordering :=
  compareLex (compareOn fun v : Version => v.rank)
    (compareOn fun v : Version => (if v.isPrerelease then 0 else 1 : Nat)) a b

/-- Comparison operators of a PEP 440 specifier clause; the claims only
exercise ordering-based clauses, modelled against the version order. -/
inductive SpecOp
  | ge
  | gt
  | le
  | lt
  | eqOp
  | ne
deriving DecidableEq

/-- One clause `op version` of a specifier set (model of the external
packaging.specifiers clause). -/
structure SpecClause where
  op : SpecOp
  version : Version
deriving DecidableEq

/-- Does the clause accept version `v` (ignoring prerelease gating, which
`specContains` applies globally)? -/
def SpecClause.matches (c : SpecClause) (v : Version) : Bool :=
  match c.op with
  | .ge => v.vcmp c.version ≠ .lt
  | .gt => v.vcmp c.version = .gt
  | .le => v.vcmp c.version ≠ .gt
  | .lt => v.vcmp c.version = .lt
  | .eqOp => v.vcmp c.version = .eq
  | .ne => v.vcmp c.version ≠ .eq

/-- Model of `packaging.specifiers.SpecifierSet.contains(version, prereleases)`:
when `prereleases` is false a prerelease version is rejected outright;
otherwise every clause must accept the version. -/
def specContains (spec : List SpecClause) (v : Version) (prereleases : Bool) : Bool :=
  (prereleases || !v.isPrerelease) && spec.all (fun c => c.matches v)

/-- Model of a PEP 508 environment marker as evaluated by
`_ReqExtras.markers_pass`, which supplies the environment
`{'extra': extra}`: the claims only need markers over the `extra`
variable plus constants. -/
inductive Marker
  | extraEq (v : String)
  | extraNe (v : String)
  | boolConst (b : Bool)
deriving DecidableEq

/-- Model of `marker.evaluate({'extra': extra})`. -/
def Marker.evaluate (m : Marker) (extra : String) : Bool :=
  match m with
  | .extraEq v => extra == v
  | .extraNe v => extra != v
  | .boolConst b => b

/-- Translation of `pkg_resources.Requirement` (line 3457): a parsed
requirement with its canonicalized key, specifier, extras tuple, optional
URL and optional environment marker.  The `__init__` derivations
(`project_name = safe_name(name)`, `key = project_name.lower()`,
`extras = tuple(map(safe_extra, extras))`) are assumed already applied to
the stored fields, as they are for every requirement the code builds. -/
structure Requirement where
  project_name : String
  key : String
  url : Option String
  specifier : List SpecClause
  extras : List String
  marker : Option Marker
deriving DecidableEq

/-- Order-insensitive list equality, modelling Python
`frozenset(a) == frozenset(b)`. -/
def listSetEq [BEq α] (a b : List α) : Bool :=
  a.all (b.contains ·) && b.all (a.contains ·)

/-- Translation of `Requirement.__eq__` (line 3479): equality of the
`hashCmp` tuples `(key, url, specifier, frozenset(extras), str(marker))`.
Specifier and marker equality are modelled structurally. -/
def Requirement.pyEq (a b : Requirement) : Bool :=
  a.key == b.key && a.url == b.url && decide (a.specifier = b.specifier) &&
    listSetEq a.extras b.extras && decide (a.marker = b.marker)

/-- Translation of `pkg_resources.Distribution` (line 2903), restricted to
the fields the claims exercise.  `version` holds the value of
`_forgiving_parsed_version` (always available); `hasVersionFlag` records
whether the strict `.version` accessor succeeds, i.e. whether `has_version`
(line 3327) returns True.  `depMap` is the cached `_dep_map` from extra
(None = the null extra) to direct requirements. -/
structure Distribution where
  project_name : String
  version : Version
  hasVersionFlag : Bool
  py_version : Option String
  platform : Option String
  location : String
  precedence : Int
  depMap : List (Option String × List Requirement)
deriving DecidableEq

/-- Translation of `Distribution.key` (line 2998): the lowercased project
name. -/
def Distribution.key (d : Distribution) : String :=
  strToLower d.project_name

/-- Translation of `Distribution.has_version` (line 3327): true iff the
`.version` accessor does not raise. -/
def Distribution.has_version (d : Distribution) : Bool :=
  d.hasVersionFlag

/-- Translation of the `Distribution.hashcmp` tuple (line 2959):
`(_forgiving_parsed_version, precedence, key, location, py_version or '',
platform or '')`, with the version contributing its two-component order
key. -/
def Distribution.hashKey (d : Distribution) :
    Int × Nat × Int × String × String × String × String :=
  (d.version.rank, (if d.version.isPrerelease then 0 else 1), d.precedence,
    d.key, d.location, d.py_version.getD "", d.platform.getD "")

/-- Comparator realising Python tuple comparison of `hashcmp` values. -/
def hashcmpCmp : Distribution → Distribution → Ordering :=
  compareLex (compareOn fun d : Distribution => d.version.rank) <|
  compareLex (compareOn fun d : Distribution =>
      (if d.version.isPrerelease then 0 else 1 : Nat)) <|
  compareLex (compareOn fun d : Distribution => d.precedence) <|
  compareLex (compareOn fun d : Distribution => d.key) <|
  compareLex (compareOn fun d : Distribution => d.location) <|
  compareLex (compareOn fun d : Distribution => d.py_version.getD "") <|
  compareOn fun d : Distribution => d.platform.getD ""

instance : Batteries.TransCmp hashcmpCmp := by
  unfold hashcmpCmp
  infer_instance

/-- Translation of `Distribution.__eq__` (line 2984): two distributions are
equal iff their `hashcmp` tuples are. -/
def Distribution.pyEq (a b : Distribution) : Bool :=
  decide (a.hashKey = b.hashKey)

/-- Distribution `a` sorts no lower than `b` under the `hashcmp` order
(used for descending sortedness). -/
def hcGe (a b : Distribution) : Bool :=
  hashcmpCmp a b ≠ .lt

/-- Stable descending insertion: place `d` after every element that does
not sort strictly below it.  This is where Python's stable
`list.sort(key=attrgetter('hashcmp'), reverse=True)` puts a
newly-appended element. -/
def insertDesc (d : Distribution) : List Distribution → List Distribution
  | [] => [d]
  | x :: xs =>
    if hashcmpCmp x d = .lt then d :: x :: xs else x :: insertDesc d xs

/-- Insertion sort by `hashcmp`, descending; agrees with Python's stable
`sort(..., reverse=True)` on the lists `Environment.add` sorts. -/
def sortDesc : List Distribution → List Distribution
  | [] => []
  | x :: xs => insertDesc x (sortDesc xs)

/-- Translation of the regex `macosx-(\d+)\.(\d+)-(.*)` match (line 462),
returning the three group strings. -/
def parseMacosVersion (s : String) : Option (String × String × String) :=
  if strStartsWith s "macosx-" then
    let cs := s.data.drop 7
    match cs.takeWhile Char.isDigit, cs.dropWhile Char.isDigit with
    | [], _ => none
    | g1, '.' :: rest2 =>
      match rest2.takeWhile Char.isDigit, rest2.dropWhile Char.isDigit with
      | [], _ => none
      | g2, '-' :: rest4 => some (String.mk g1, String.mk g2, String.mk rest4)
      | _, _ => none
    | _, _ => none
  else none

/-- Translation of the regex `darwin-(\d+)\.(\d+)\.(\d+)-(.*)` match
(line 463), returning the four group strings. -/
def parseDarwinVersion (s : String) : Option (String × String × String × String) :=
  if strStartsWith s "darwin-" then
    let cs := s.data.drop 7
    match cs.takeWhile Char.isDigit, cs.dropWhile Char.isDigit with
    | [], _ => none
    | g1, '.' :: rest2 =>
      match rest2.takeWhile Char.isDigit, rest2.dropWhile Char.isDigit with
      | [], _ => none
      | g2, '.' :: rest3 =>
        match rest3.takeWhile Char.isDigit, rest3.dropWhile Char.isDigit with
        | [], _ => none
        | g3, '-' :: rest4 => some (String.mk g1, String.mk g2, String.mk g3, String.mk rest4)
        | _, _ => none
      | _, _ => none
    | _, _ => none
  else none

/-- Translation of `compatible_platforms` (line 468): true if either
platform is None or they are equal, plus the macOS/legacy-darwin
special cases.  Python's string `>=` is modelled as not-less-than. -/
def compatible_platforms (provided required : Option String) : Bool :=
  match provided, required with
  | none, _ => true
  | some _, none => true
  | some p, some r =>
    if p = r then true
    else
      match parseMacosVersion r with
      | none => false
      | some (rMaj, rMin, _rMach) =>
        match parseMacosVersion p with
        | none =>
          match parseDarwinVersion p with
          | none => false
          | some (dMajS, _, _, _) =>
            let dversion := natOfDigits dMajS.data
            let macosversion := rMaj ++ "." ++ rMin
            (dversion == 7 && !(decide (macosversion < "10.3"))) ||
              (dversion == 8 && !(decide (macosversion < "10.4")))
        | some (pMaj, pMin, pMach) =>
          if pMaj ≠ rMaj || pMach ≠ _rMach then false
          else if natOfDigits pMin.data > natOfDigits rMin.data then false
          else true

/-- Translation of `pkg_resources.Environment` (line 1137): the per-key
distribution map (a dict from lowercased key to a list, insertion-ordered)
plus the platform/python filters fixed at construction.  `scan` (a
filesystem walk) is outside the model; environments are built by explicit
`add` calls. -/
structure Environment where
  distmap : List (String × List Distribution)
  platform : Option String
  python : Option String
deriving DecidableEq

/-- Translation of `Environment.can_add` (line 1167). -/
def Environment.can_add (env : Environment) (dist : Distribution) : Bool :=
  (env.python.isNone || dist.py_version.isNone || dist.py_version == env.python)
    && compatible_platforms dist.platform env.platform

/-- Translation of `Environment.__getitem__` (line 1200): lowercase the
project name, return the stored list or `[]`. -/
def Environment.get (env : Environment) (project_name : String) : List Distribution :=
  (alookup (· == ·) (strToLower project_name) env.distmap).getD []

/-- Translation of `Environment.add` (line 1211): if `can_add` and
`has_version`, append the distribution to its key's list unless an equal
one is present, then re-sort that list descending by `hashcmp`. -/
def Environment.add (env : Environment) (dist : Distribution) : Environment :=
  if env.can_add dist && dist.has_version then
    let dists := (alookup (· == ·) dist.key env.distmap).getD []
    if dists.any (fun x => x.pyEq dist) then env
    else { env with distmap := aset (· == ·) dist.key (sortDesc (dists ++ [dist])) env.distmap }
  else env

/-- Translation of `Environment.obtain` (line 1286): return
`installer(requirement)` when an installer is supplied, else None. -/
def Environment.obtain (_env : Environment) (req : Requirement)
    (installer : Option (Requirement → Option Distribution)) : Option Distribution :=
  match installer with
  | some f => f req
  | none => none

/-- Translation of `Environment.__iadd__` (line 1310) for an Environment
operand: add every distribution of every project of `other`. -/
def Environment.iaddEnv (env other : Environment) : Environment :=
  other.distmap.foldl (fun acc p => (other.get p.1).foldl (fun a d => a.add d) acc) env

/-- The right operand of `Environment.__add__`: a Distribution or an
Environment. -/
inductive DistOrEnv
  | dist (d : Distribution)
  | env (e : Environment)

/-- Translation of `Environment.__add__` (line 1322): build a fresh
Environment with `platform=None, python=None` and fold both operands into
it with `+=`. -/
def Environment.hAdd (env : Environment) (other : DistOrEnv) : Environment :=
  let new : Environment := ⟨[], none, none⟩
  let new := new.iaddEnv env
  match other with
  | .dist d => new.add d
  | .env o => new.iaddEnv o

/-- Structured resolution failures (pkg_resources lines 301-378), plus the
`UnknownExtra` raised by `Distribution.requires` (line 3109), which
propagates out of `resolve` the same way. -/
inductive ResolutionErr
  | distributionNotFound (req : Requirement) (requirers : Option (List String))
  | versionConflict (dist : Distribution) (req : Requirement)
  | contextualVersionConflict (dist : Distribution) (req : Requirement)
      (required_by : List String)
  | unknownExtra (dist : Distribution) (extra : String)
deriving DecidableEq

/-- Translation of `VersionConflict.with_context` (line 329): an empty
requirer set keeps the plain conflict, a non-empty one upgrades it to a
contextual conflict. -/
def withContext (dist : Distribution) (req : Requirement)
    (required_by : List String) : ResolutionErr :=
  if required_by = [] then .versionConflict dist req
  else .contextualVersionConflict dist req required_by

/-- Argument of `Requirement.__contains__` (line 3485): a Distribution or a
bare version. -/
inductive ContainsArg
  | dist (d : Distribution)
  | ver (v : Version)

/-- Translation of `Requirement.__contains__` (line 3485): for a
Distribution, keys must match and then the distribution's version is
tested; either way the specifier is consulted with `prereleases=True`.
For a Distribution the source reads `item.version`, which raises when the
version is missing; the claims only apply it to distributions with
`has_version`. -/
def Requirement.contains (r : Requirement) : ContainsArg → Bool
  | .dist d => if d.key ≠ r.key then false else specContains r.specifier d.version true
  | .ver v => specContains r.specifier v true

/-- Translation of `pkg_resources.WorkingSet` (line 622), restricted to the
state the resolution algorithm reads: the active distribution per key and
the normalized-key alias map.  `entries`/`entry_keys`/`callbacks` serve
path bookkeeping and filesystem scanning, which the modelled `resolve`
(always given an explicit Environment) never touches. -/
structure WorkingSet where
  by_key : List (String × Distribution)
  normalized_to_canonical_keys : List (String × String)
deriving DecidableEq

/-- Translation of `WorkingSet.find` (line 700): probe the requirement's
key, its normalized alias, and its safe-name variant; if an active
distribution is found but does not satisfy the requirement, fail with a
version conflict.  The source also rebinds `req.key` to the matched
candidate; that rebinding is the identity whenever the requirement's own
key is the candidate that matches, which covers every scenario modelled
here. -/
def WorkingSet.find (ws : WorkingSet) (req : Requirement) :
    Except ResolutionErr (Option Distribution) :=
  let candidates : List (Option String) :=
    [some req.key,
     alookup (· == ·) req.key ws.normalized_to_canonical_keys,
     some (charReplace '.' '-' (safe_name req.key))]
  match firstSome (fun c? => c?.bind fun c => alookup (· == ·) c ws.by_key) candidates with
  | some d =>
    if !(req.contains (.dist d)) then .error (.versionConflict d req) else .ok (some d)
  | none => .ok none

/-- Translation of `Environment.best_match` (line 1235): prefer the working
set's active distribution (propagating its conflict unless
`replace_conflicting`), else the first environment candidate satisfying
the requirement, else `obtain`. -/
def Environment.best_match (env : Environment) (req : Requirement)
    (working_set : WorkingSet) (installer : Option (Requirement → Option Distribution))
    (replace_conflicting : Bool) : Except ResolutionErr (Option Distribution) :=
  let scan : Except ResolutionErr (Option Distribution) :=
    match (env.get req.key).find? (fun d => req.contains (.dist d)) with
    | some d => .ok (some d)
    | none => .ok (env.obtain req installer)
  match working_set.find req with
  | .error e => if !replace_conflicting then .error e else scan
  | .ok (some d) => .ok (some d)
  | .ok none => scan

/-- Translation of `Distribution.requires` (line 3100): the null extra's
requirements followed by each requested extra's, failing with
`UnknownExtra` when a requested extra is not in the dependency map. -/
def Distribution.requires (d : Distribution) (extras : List String) :
    Except ResolutionErr (List Requirement) :=
  extras.foldlM (fun deps ext =>
    match alookup (· == ·) (some (safe_extra ext)) d.depMap with
    | some reqs => Except.ok (deps ++ reqs)
    | none => Except.error (.unknownExtra d ext))
    ((alookup (· == ·) (none : Option String) d.depMap).getD [])

/-- State of `_ReqExtras` and of `required_by` in `resolve`: a dict keyed
by Requirement (via its Python equality). -/
abbrev ReqExtras := List (Requirement × List String)

/-- Translation of `_ReqExtras.markers_pass` (line 1123): a requirement
without a marker passes; otherwise the marker is evaluated at each extra
recorded as demanding the requirement plus the supplied extras, where
`extras or ("",)` replaces a None or empty argument by the empty-string
pseudo-extra. -/
def markers_pass (re : ReqExtras) (req : Requirement)
    (extras : Option (List String)) : Bool :=
  match req.marker with
  | none => true
  | some m =>
    let supplied :=
      match extras with
      | none => [""]
      | some [] => [""]
      | some es => es
    (((alookup Requirement.pyEq req re).getD []) ++ supplied).any (fun e => m.evaluate e)

/-- Successful outcome of `_resolve_dist`: the chosen distribution plus
the updated `best` map and `to_activate` list. -/
structure ResolveDistOk where
  dist : Distribution
  best : List (String × Distribution)
  to_activate : List Distribution
deriving DecidableEq

/-- Translation of `WorkingSet._resolve_dist` (line 910).  The
`env is None` fallback (which rebuilds an Environment from the working
set's path entries, a filesystem scan) is outside the model: an explicit
Environment is always supplied, so `ws` stays `self` as in the source. -/
def WorkingSet._resolve_dist (ws : WorkingSet) (req : Requirement)
    (best : List (String × Distribution)) (replace_conflicting : Bool)
    (env : Environment) (installer : Option (Requirement → Option Distribution))
    (required_by : ReqExtras) (to_activate : List Distribution) :
    Except ResolutionErr ResolveDistOk :=
  let conflictCheck : Distribution → List (String × Distribution) →
      List Distribution → Except ResolutionErr ResolveDistOk := fun dist best' toAct' =>
    if !(req.contains (.dist dist)) then
      Except.error (withContext dist req ((alookup Requirement.pyEq req required_by).getD []))
    else Except.ok ⟨dist, best', toAct'⟩
  let fromBestMatch : Except ResolutionErr ResolveDistOk :=
    match env.best_match req ws installer replace_conflicting with
    | .error e => .error e
    | .ok none => .error (.distributionNotFound req (alookup Requirement.pyEq req required_by))
    | .ok (some d) => conflictCheck d (aset (· == ·) req.key d best) (to_activate ++ [d])
  match alookup (· == ·) req.key best with
  | some dist => conflictCheck dist best to_activate
  | none =>
    match alookup (· == ·) req.key ws.by_key with
    | none => fromBestMatch
    | some dist =>
      if !(req.contains (.dist dist)) && replace_conflicting then fromBestMatch
      else conflictCheck dist best (to_activate ++ [dist])

/-- Outcome of `WorkingSet.resolve`: the activation list, a structured
failure, or fuel exhaustion (the Python loop has no termination measure;
the claims hold for any sufficient fuel). -/
inductive ResolveResult
  | ok (to_activate : List Distribution)
  | err (e : ResolutionErr)
  | fuelOut
deriving DecidableEq

/-- The `req_extras[new_requirement] = req.extras` assignments of
`resolve` for a batch of new requirements. -/
def setAll (re : ReqExtras) (reqs : List Requirement) (v : List String) : ReqExtras :=
  reqs.foldl (fun acc r => aset Requirement.pyEq r v acc) re

/-- The `required_by[new_requirement].add(req.project_name)` update of
`resolve` (defaultdict of sets, modelled as append-if-absent). -/
def addRequirer (required_by : ReqExtras) (r : Requirement) (name : String) : ReqExtras :=
  match alookup Requirement.pyEq r required_by with
  | some l =>
    if l.contains name then required_by
    else aset Requirement.pyEq r (l ++ [name]) required_by
  | none => aset Requirement.pyEq r [name] required_by

/-- `addRequirer` over a batch of new requirements. -/
def addRequirers (required_by : ReqExtras) (reqs : List Requirement)
    (name : String) : ReqExtras :=
  reqs.foldl (fun acc r => addRequirer acc r name) required_by

/-- Translation of the `while requirements:` loop of `WorkingSet.resolve`
(line 882): pop the front of the queue; skip requirements already
processed (Python set membership, i.e. Requirement equality) and
requirements whose markers fail; otherwise resolve a distribution, append
its own requirements (reversed) to the queue, and record bookkeeping.
Fuel replaces the unbounded loop. -/
def WorkingSet.resolveLoop (ws : WorkingSet) (env : Environment)
    (installer : Option (Requirement → Option Distribution))
    (replace_conflicting : Bool) (extras : Option (List String)) :
    Nat → List Requirement → List Requirement → ReqExtras →
    List (String × Distribution) → List Distribution → ReqExtras → ResolveResult
  | _, [], _, _, _, to_activate, _ => .ok to_activate
  | 0, _ :: _, _, _, _, _, _ => .fuelOut
  | fuel + 1, req :: rest, processed, req_extras, best, to_activate, required_by =>
    if processed.any (fun p => p.pyEq req) then
      ws.resolveLoop env installer replace_conflicting extras fuel rest processed
        req_extras best to_activate required_by
    else if !(markers_pass req_extras req extras) then
      ws.resolveLoop env installer replace_conflicting extras fuel rest processed
        req_extras best to_activate required_by
    else
      match ws._resolve_dist req best replace_conflicting env installer required_by to_activate with
      | .error e => .err e
      | .ok r =>
        match r.dist.requires req.extras with
        | .error e => .err e
        | .ok newReqs =>
          let new_requirements := newReqs.reverse
          ws.resolveLoop env installer replace_conflicting extras fuel
            (rest ++ new_requirements) (processed ++ [req])
            (setAll req_extras new_requirements req.extras)
            r.best r.to_activate
            (addRequirers required_by new_requirements req.project_name)

/-- Translation of `WorkingSet.resolve` (line 836): reverse the input
requirements (`list(requirements)[::-1]`) and run the queue loop with
empty bookkeeping state. -/
def WorkingSet.resolve (ws : WorkingSet) (fuel : Nat)
    (requirements : List Requirement) (env : Environment)
    (installer : Option (Requirement → Option Distribution))
    (replace_conflicting : Bool) (extras : Option (List String)) : ResolveResult :=
  ws.resolveLoop env installer replace_conflicting extras fuel
    requirements.reverse [] [] [] [] []

/-- A cached file on disk: its bytes and its modification time (the stat
fields `_is_current` reads are the length of `content` and `mtime`). -/
structure FsFile where
  content : List Nat
  mtime : Nat
deriving DecidableEq

/-- The extraction cache directory, as a map from path to file. -/
abbrev Fs := List (String × FsFile)

/-- One archive member as `ZipProvider` sees it: `timestamp` is
`time.mktime(zip_stat.date_time ...)` and `file_size` the recorded size
(`_get_date_and_size`, line 2050); `content` is what
`loader.get_data(zip_path)` returns. -/
structure ZipEntry where
  timestamp : Nat
  file_size : Nat
  content : List Nat
deriving DecidableEq

/-- Translation of `ResourceManager.get_cache_path` (line 1435):
`os.path.join(extract_path, archive_name + '-tmp', *names)`, with the
POSIX separator; the directory-creation side effect is outside the
model. -/
def get_cache_path (extraction_path archive_name : String)
    (names : List String) : String :=
  String.intercalate "/" (extraction_path :: (archive_name ++ "-tmp") :: names)

/-- Translation of `ZipProvider._is_current` (line 2114): the cached file
must exist, its size and mtime must equal the archive entry's recorded
size and timestamp, and its contents must equal the archive bytes. -/
def _is_current (fs : Fs) (file_path : String) (z : ZipEntry) : Bool :=
  match alookup (· == ·) file_path fs with
  | none => false
  | some f =>
    if f.content.length ≠ z.file_size || f.mtime ≠ z.timestamp then false
    else decide (z.content = f.content)

/-- Write (create or overwrite) a cache file. -/
def fsWrite (fs : Fs) (path : String) (f : FsFile) : Fs :=
  aset (· == ·) path f fs

/-- Result of one `_extract_resource` call: the returned path, the cache
state afterwards, and whether the call wrote the cached file. -/
structure ExtractOutcome where
  real_path : String
  fs : Fs
  wrote : Bool
deriving DecidableEq

/-- Translation of the file branch of `ZipProvider._extract_resource`
(line 2060) for a non-directory archive member: compute the deterministic
cache path; if `_is_current` return it unchanged, else write the archive
bytes with the entry's timestamp (`utime(tmpnam, (timestamp, timestamp))`)
and rename into place, modelled as one atomic write.  The rename-collision
retry and the OS-error wrapping are concurrency/OS failure paths outside
the single-process model. -/
def _extract_resource (fs : Fs) (extraction_path egg_name : String)
    (parts : List String) (z : ZipEntry) : ExtractOutcome :=
  let real_path := get_cache_path extraction_path egg_name parts
  if _is_current fs real_path z then ⟨real_path, fs, false⟩
  else ⟨real_path, fsWrite fs real_path ⟨z.content, z.timestamp⟩, true⟩

/-- How `NullProvider._validate_resource_path` ends: silently, with a
`DeprecationWarning`, or by raising `ValueError`. -/
inductive ValidationOutcome
  | ok
  | warn
  | raiseError
deriving DecidableEq

/-- Translation of `posixpath.isabs`. -/
def posixpath_isabs (s : String) : Bool :=
  strStartsWith s "/"

/-- Model of CPython 3.13 `ntpath.isabs`: after mapping `/` to `\`, the
path is absolute iff it starts with a double separator or has `:\` at
positions 1-2 (drive-absolute).  Earlier Pythons also counted a single
leading backslash, which the source checks separately anyway. -/
def ntpath_isabs (s : String) : Bool :=
  let t := s.data.map (fun c => if c == '/' then '\\' else c)
  match t with
  | '\\' :: '\\' :: _ => true
  | _ :: ':' :: '\\' :: _ => true
  | _ => false

/-- Translation of `NullProvider._validate_resource_path` (line 1777): a
path is invalid when it has a `..` segment (splitting on `/`), is
POSIX-absolute, is Windows-absolute, or starts with a backslash; invalid
Windows-absolute paths that are not POSIX-absolute raise `ValueError`,
every other invalid path only gets a `DeprecationWarning`. -/
def _validate_resource_path (path : String) : ValidationOutcome :=
  let invalid :=
    (strSplitOnChar '/' path).contains ".." || posixpath_isabs path
      || ntpath_isabs path || strStartsWith path "\\"
  if !invalid then .ok
  else if (strStartsWith path "\\" || ntpath_isabs path) && !(posixpath_isabs path) then
    .raiseError
  else .warn

/-- Characters of Python regex `\s` (the source patterns operate on ASCII
entry-point lines). -/
def isSpaceChar (c : Char) : Bool :=
  c == ' ' || c == '\t' || c == '\n' || c == '\r' || c == '\x0b' || c == '\x0c'

/-- Characters of Python regex `\w`, ASCII fragment. -/
def isWordChar (c : Char) : Bool :=
  isAsciiAlnum c || c == '_'

/-- Characters of the regex class `[\w.]`. -/
def isWordDotChar (c : Char) : Bool :=
  isWordChar c || c == '.'

/-- Drop leading `\s` characters. -/
def dropSpaces (cs : List Char) : List Char :=
  cs.dropWhile isSpaceChar

/-- Strip characters satisfying `bad` from both ends (Python `str.strip`
with a character set). -/
def stripChar (bad : Char → Bool) (cs : List Char) : List Char :=
  ((cs.dropWhile bad).reverse.dropWhile bad).reverse

/-- Strip `\s` from both ends. -/
def trimSpaces (cs : List Char) : List Char :=
  stripChar isSpaceChar cs

/-- Translation of the `MODULE` regex `\w+(\.\w+)*$` used by
`EntryPoint.__init__` (line 2723): nonempty dot-separated runs of word
characters. -/
def isModuleName (s : String) : Bool :=
  (splitOnChar '.' s.data).all (fun p => p ≠ [] && p.all isWordChar)

/-- Translation of `pkg_resources.EntryPoint` (line 2712): name, module,
attribute path and extras.  The optional owning Distribution is None in
all parsed scenarios here and is omitted. -/
structure EntryPoint where
  name : String
  module_name : String
  attrs : List String
  extras : List String
deriving DecidableEq

/-- Model of `EntryPoint._parse_extras` (line 2837), which delegates to
the external packaging requirement parser via
`Requirement.parse('x' + extras_spec)`: a falsy spec yields no extras;
otherwise the bracketed, comma-separated, whitespace-stripped identifiers
are returned (after `safe_extra`, applied by `Requirement.__init__`), and
a malformed spec is a parse failure. -/
def _parse_extras (spec : Option String) : Option (List String) :=
  match spec with
  | none => some []
  | some s =>
    if s = "" then some []
    else
      let inner := ((s.data.drop 1).reverse.drop 1).reverse
      let parts := (splitOnChar ',' inner).map trimSpaces
      if parts.all (fun p => p ≠ [] &&
          p.all (fun c => isWordChar c || c == '-' || c == '.')) then
        some (parts.map (fun p => safe_extra (String.mk p)))
      else none

/-- The optional `(:\s*(?P<attr>[\w.]+))?` group of the EntryPoint
pattern (line 2807): a colon must be followed by a nonempty `[\w.]+`
run. -/
def parseAttrGroup (rest : List Char) : Option (Option (List Char) × List Char) :=
  match rest with
  | ':' :: r =>
    let r2 := dropSpaces r
    let a := r2.takeWhile isWordDotChar
    if a = [] then none
    else some (some a, dropSpaces (r2.dropWhile isWordDotChar))
  | _ => some (none, rest)

/-- The trailing `(?P<extras>\[.*\])?\s*$` of the EntryPoint pattern:
either nothing (after spaces) or a bracketed group running to the last
closing bracket before the end. -/
def parseExtrasGroup (tl : List Char) : Option (Option String) :=
  let tl' := (dropSpaces tl.reverse).reverse
  match tl' with
  | [] => some none
  | '[' :: _ =>
    match tl'.reverse with
    | ']' :: _ => some (some (String.mk tl'))
    | _ => none
  | _ => none

/-- The part of the EntryPoint pattern after the `=`:
`\s*(?P<module>[\w.]+)\s*(:\s*(?P<attr>[\w.]+))?\s*(?P<extras>\[.*\])?\s*$`,
returning the module string, the attribute path (`attr.split('.')`), and
the raw extras group. -/
def parseAfterEq (cs0 : List Char) : Option (String × List String × Option String) :=
  let cs := dropSpaces cs0
  let modCs := cs.takeWhile isWordDotChar
  let rest := dropSpaces (cs.dropWhile isWordDotChar)
  if modCs = [] then none
  else
    match parseAttrGroup rest with
    | none => none
    | some (attr?, tl) =>
      match parseExtrasGroup tl with
      | none => none
      | some spec? =>
        let attrs :=
          match attr? with
          | none => []
          | some a => (splitOnChar '.' a).map String.mk
        some (String.mk modCs, attrs, spec?)

/-- All ways of splitting a character list at an `=`, in left-to-right
order (used to realise the lazy `(?P<name>.+?)\s*=` group: the first
split whose remainder parses wins). -/
def eqSplits : List Char → List (List Char × List Char)
  | [] => []
  | c :: cs =>
    (if c == '=' then [(([] : List Char), cs)] else []) ++
      (eqSplits cs).map (fun p => (c :: p.1, p.2))

/-- Translation of `EntryPoint.parse` (line 2817) composed with the
`EntryPoint.__init__` module-name check: match the pattern
`name = module[:attrs] [extras]` (name taken lazily at the first viable
`=`, surrounding whitespace stripped, nonempty), then validate the module
name. -/
def EntryPoint.parse (src : String) : Except String EntryPoint :=
  let tryOne : List Char × List Char → Option EntryPoint := fun p =>
    let name := trimSpaces p.1
    if name = [] then none
    else
      match parseAfterEq p.2 with
      | none => none
      | some (modName, attrs, extrasSpec) =>
        match _parse_extras extrasSpec with
        | none => none
        | some extras => some ⟨String.mk name, modName, attrs, extras⟩
  match firstSome tryOne (eqSplits src.data) with
  | some ep =>
    if isModuleName ep.module_name then .ok ep
    else .error "Invalid module name"
  | none => .error "EntryPoint must be in name=module:attrs extras format"

/-- Attribute assignment on a `pkg_resources.EntryPoint`: the class defines
no `__setattr__`, so Python's default assignment succeeds; modelled
functionally as returning the updated object. -/
def EntryPoint.setName (ep : EntryPoint) (v : String) : Except String EntryPoint :=
  Except.ok { ep with name := v }

end PkgResources

namespace ImportlibMetadata

/-- Translation of `importlib_metadata.EntryPoint` (line 144): the three
identifying fields (the lazily-parsed module/attr/extras views are derived
from `value`). -/
structure EntryPoint where
  name : String
  value : String
  group : String
deriving DecidableEq

/-- Translation of `EntryPoint.__setattr__` (line 302): every attribute
assignment on a constructed object raises
`AttributeError("EntryPoint objects are immutable.")`. -/
def EntryPoint.setAttr (_ep : EntryPoint) (_attr _value : String) :
    Except String EntryPoint :=
  Except.error "EntryPoint objects are immutable."

/-- Loop of `Sectioned.read` (line 122): bracketed lines update the
current section name (stripping `[`/`]` from both ends), other lines are
yielded with the current name. -/
def sectionedGo (name : Option String) : List String → List (Option String × String)
  | [] => []
  | v :: rest =>
    if PkgResources.strStartsWith v "[" && PkgResources.strEndsWith v "]" then
      sectionedGo
        (some (String.mk (PkgResources.stripChar (fun c => c == '[' || c == ']') v.data)))
        rest
    else (name, v) :: sectionedGo name rest

/-- Translation of `Sectioned.read(text)` as called by
`_deps_from_requires_text` (line 675), i.e. with `filter_=None`: strip
every line, drop empty ones, then pair lines with their section.
`str.splitlines` is modelled as splitting on newline. -/
def Sectioned.read (text : String) : List (Option String × String) :=
  sectionedGo none
    (((PkgResources.strSplitOnChar '\n' text).map
        (fun l => String.mk (PkgResources.trimSpaces l.data))).filter (fun l => l ≠ ""))

/-- Translation of `str.partition(':')` as used by `quoted_marker`: the
part before the first colon and the part after it (empty when there is no
colon). -/
def partitionColon (s : String) : String × String :=
  let before := s.data.takeWhile (fun c => c ≠ ':')
  match s.data.dropWhile (fun c => c ≠ ':') with
  | [] => (String.mk before, "")
  | _ :: rest => (String.mk before, String.mk rest)

/-- Translation of `make_condition` (line 690). -/
def make_condition (name : String) : String :=
  if name = "" then "" else "extra == \"" ++ name ++ "\""

/-- Translation of `quoted_marker` (line 693): split the section name at
the first colon into extra and markers, parenthesize the markers when both
are nonempty, and join the nonempty conditions with " and " after "; ". -/
def quoted_marker (sec : Option String) : String :=
  let s := sec.getD ""
  let em := partitionColon s
  let extra := em.1
  let markers0 := em.2
  let markers :=
    if extra ≠ "" && markers0 ≠ "" then "(" ++ markers0 ++ ")" else markers0
  let conditions := [markers, make_condition extra].filter (fun c => c ≠ "")
  if conditions ≠ [] then "; " ++ String.intercalate " and " conditions else ""

/-- Translation of `url_req_space` (line 701): one space iff the
requirement value contains `@`. -/
def url_req_space (req : String) : String :=
  if req.data.contains '@' then " " else ""

/-- Translation of `Distribution._convert_egg_info_reqs_to_simple_reqs`
(line 678). -/
def _convert_egg_info_reqs_to_simple_reqs
    (sections : List (Option String × String)) : List String :=
  sections.map (fun s => s.2 ++ url_req_space s.2 ++ quoted_marker s.1)

/-- Translation of `Distribution._deps_from_requires_text` (line 674). -/
def _deps_from_requires_text (source : String) : List String :=
  _convert_egg_info_reqs_to_simple_reqs (Sectioned.read source)

end ImportlibMetadata

namespace PkgResources

/-- Modelled rank of version 0.5 (see `Version`). -/
def v0_5 : Version := ⟨50, false⟩

/-- Modelled rank of version 0.9 (see `Version`). -/
def v0_9 : Version := ⟨90, false⟩

/-- Modelled rank of version 1.0 (see `Version`). -/
def v1_0 : Version := ⟨100, false⟩

/-- The requirement `pkg>=1.0` as `Requirement.parse` builds it: project
name and key `pkg`, one `>=` clause, no url, extras or marker. -/
def reqPkgGe10 : Requirement := ⟨"pkg", "pkg", none, [⟨.ge, v1_0⟩], [], none⟩

/-- A distribution `pkg==0.9` with parseable metadata. -/
def dist09 : Distribution := ⟨"pkg", v0_9, true, none, none, "/lib/pkg-0.9.egg", 3, []⟩

/-- A distribution `pkg==0.5` with parseable metadata. -/
def dist05 : Distribution := ⟨"pkg", v0_5, true, none, none, "/lib/pkg-0.5.egg", 3, []⟩

/-- An Environment whose only candidate for key `pkg` is `pkg==0.9`. -/
def env09 : Environment := ⟨[("pkg", [dist09])], none, none⟩

/-- An Environment with no candidates at all. -/
def envEmpty : Environment := ⟨[], none, none⟩

/-- A WorkingSet with no active distributions. -/
def wsEmpty : WorkingSet := ⟨[], []⟩

/-- A requirement for project `foo` carrying the environment marker
`extra == ""`, satisfiable only at the empty-string pseudo-extra. -/
def reqFooMarker : Requirement := ⟨"foo", "foo", none, [], [], some (.extraEq "")⟩

/-- Descending sortedness by the `hashcmp` comparator: every element
sorts no lower than its successor. -/
def SortedDesc (l : List Distribution) : Prop :=
  l.Chain' (fun a b => hcGe a b = true)

/-- The invariant of C4 on an Environment: every stored distribution
passed `can_add` and `has_version` at insertion time, no per-key list
holds two equal distributions, and every per-key list is sorted
descending by the `hashcmp` tuple. -/
def Environment.Inv (env : Environment) : Prop :=
  ∀ p ∈ env.distmap,
    (∀ d ∈ p.2, env.can_add d = true ∧ d.has_version = true) ∧
    p.2.Pairwise (fun a b => a.pyEq b = false) ∧
    SortedDesc p.2

/-- All distributions stored in an environment, in map order. -/
def Environment.allDists (env : Environment) : List Distribution :=
  (env.distmap.map Prod.snd).flatten

/-- Well-formedness of an environment's key structure, as `add` maintains
it: keys are pairwise distinct (Python dict keys) and lowercase (every
key is some distribution's lowercased `key`). -/
def Environment.KeysWF (env : Environment) : Prop :=
  env.distmap.Pairwise (fun p q => p.1 ≠ q.1) ∧
    ∀ p ∈ env.distmap, strToLower p.1 = p.1

/-- The distributions contributed by the right operand of
`Environment.__add__`. -/
def DistOrEnv.dists : DistOrEnv → List Distribution
  | .dist d => [d]
  | .env e => e.allDists

/-- Key well-formedness of the right operand of `Environment.__add__`. -/
def DistOrEnv.wf : DistOrEnv → Prop
  | .dist _ => True
  | .env e => e.KeysWF

end PkgResources

namespace PkgResources

/-- C3: for every Requirement `r` and Distribution `d` (whose version
metadata parses, so that the source's `item.version` access returns), the
membership test `d in r` is true iff `d`'s key equals `r`'s key and `d`'s
version lies in `r`'s specifier, where the specifier is always consulted
with `prereleases=True`: the specifier-level prerelease gate is disabled,
so containment reduces to the clauses alone regardless of the specifier. -/
theorem requirement_contains_dist_iff (r : Requirement) (d : Distribution)
    (_hv : d.has_version = true) :
    (r.contains (.dist d) = true ↔
      (d.key = r.key ∧ specContains r.specifier d.version true = true)) ∧
    specContains r.specifier d.version true
      = r.specifier.all (fun c => c.matches d.version) := by
  refine ⟨?_, by simp [specContains]⟩
  by_cases h : d.key = r.key <;> simp [Requirement.contains, h, specContains]

/-- Witness for `requirement_contains_dist_iff` at `pkg>=1.0` and
`pkg==0.9`. -/
theorem requirement_contains_dist_iff_witness :
    dist09.has_version = true ∧
    ((reqPkgGe10.contains (.dist dist09) = true ↔
      (dist09.key = reqPkgGe10.key ∧
        specContains reqPkgGe10.specifier dist09.version true = true)) ∧
    specContains reqPkgGe10.specifier dist09.version true
      = reqPkgGe10.specifier.all (fun c => c.matches dist09.version)) :=
  ⟨by decide, requirement_contains_dist_iff reqPkgGe10 dist09 (by decide)⟩

/-- Keys of `aset` lookups: looking up the key just set returns the new
value. -/
theorem alookup_aset_self [BEq κ] [LawfulBEq κ] (k : κ) (v : β)
    (l : List (κ × β)) :
    alookup (· == ·) k (aset (· == ·) k v l) = some v := by
  induction l with
  | nil => simp [aset, alookup]
  | cons p rest ih =>
    by_cases h : (p.1 == k) = true
    · simp [aset, alookup, h]
    · simp [aset, alookup, h, ih]

/-- C5: extracting the same zip resource twice, for a well-formed archive
entry (recorded size equal to the data's length), yields the same
deterministic cache path both times; after the first extraction the cached
file's size and mtime equal the archive entry's recorded size and
timestamp, and the second extraction neither writes nor changes the cache
state. -/
theorem zip_extract_twice (fs : Fs) (extraction_path egg_name : String)
    (parts : List String) (z : ZipEntry)
    (hwf : z.file_size = z.content.length) :
    (_extract_resource fs extraction_path egg_name parts z).real_path
      = get_cache_path extraction_path egg_name parts ∧
    ((_extract_resource
        (_extract_resource fs extraction_path egg_name parts z).fs
        extraction_path egg_name parts z).real_path
      = (_extract_resource fs extraction_path egg_name parts z).real_path) ∧
    ((_extract_resource
        (_extract_resource fs extraction_path egg_name parts z).fs
        extraction_path egg_name parts z).fs
      = (_extract_resource fs extraction_path egg_name parts z).fs) ∧
    ((_extract_resource
        (_extract_resource fs extraction_path egg_name parts z).fs
        extraction_path egg_name parts z).wrote = false) ∧
    (∃ f, alookup (· == ·) (get_cache_path extraction_path egg_name parts)
        (_extract_resource fs extraction_path egg_name parts z).fs = some f ∧
      f.content.length = z.file_size ∧ f.mtime = z.timestamp) := by
  set p := get_cache_path extraction_path egg_name parts with hp
  by_cases hcur : _is_current fs p z = true
  · have h1 : _extract_resource fs extraction_path egg_name parts z
        = ⟨p, fs, false⟩ := by
      simp [_extract_resource, ← hp, hcur]
    have hex : ∃ f, alookup (· == ·) p fs = some f ∧
        f.content.length = z.file_size ∧ f.mtime = z.timestamp := by
      revert hcur
      unfold _is_current
      match halo : alookup (· == ·) p fs with
      | none => simp
      | some f =>
        intro hcur
        by_cases hs : f.content.length = z.file_size
        · by_cases hm : f.mtime = z.timestamp
          · exact ⟨f, rfl, hs, hm⟩
          · simp [hs, hm] at hcur
        · simp [hs] at hcur
    rw [h1]
    refine ⟨rfl, ?_, ?_, ?_, hex⟩
    · show (_extract_resource fs extraction_path egg_name parts z).real_path = p
      rw [h1]
    · show (_extract_resource fs extraction_path egg_name parts z).fs = fs
      rw [h1]
    · show (_extract_resource fs extraction_path egg_name parts z).wrote = false
      rw [h1]
  · have h1 : _extract_resource fs extraction_path egg_name parts z
        = ⟨p, fsWrite fs p ⟨z.content, z.timestamp⟩, true⟩ := by
      simp [_extract_resource, ← hp, hcur]
    have hlk : alookup (· == ·) p (fsWrite fs p ⟨z.content, z.timestamp⟩)
        = some ⟨z.content, z.timestamp⟩ := alookup_aset_self p _ fs
    have hcur2 : _is_current (fsWrite fs p ⟨z.content, z.timestamp⟩) p z = true := by
      simp [_is_current, hlk, hwf]
    have h2 : _extract_resource (fsWrite fs p ⟨z.content, z.timestamp⟩)
        extraction_path egg_name parts z
        = ⟨p, fsWrite fs p ⟨z.content, z.timestamp⟩, false⟩ := by
      simp [_extract_resource, ← hp, hcur2]
    rw [h1]
    refine ⟨rfl, ?_, ?_, ?_, ⟨z.content, z.timestamp⟩, hlk, hwf.symm, rfl⟩
    · show (_extract_resource (fsWrite fs p ⟨z.content, z.timestamp⟩)
          extraction_path egg_name parts z).real_path = p
      rw [h2]
    · show (_extract_resource (fsWrite fs p ⟨z.content, z.timestamp⟩)
          extraction_path egg_name parts z).fs
        = fsWrite fs p ⟨z.content, z.timestamp⟩
      rw [h2]
    · show (_extract_resource (fsWrite fs p ⟨z.content, z.timestamp⟩)
          extraction_path egg_name parts z).wrote = false
      rw [h2]

/-- Witness for `zip_extract_twice` on a concrete archive entry and empty
cache. -/
theorem zip_extract_twice_witness :
    (⟨111, 3, [7, 8, 9]⟩ : ZipEntry).file_size
      = (⟨111, 3, [7, 8, 9]⟩ : ZipEntry).content.length ∧
    (∃ f, alookup (· == ·) (get_cache_path "/cache" "pkg-0.9.egg" ["data", "r.txt"])
        (_extract_resource [] "/cache" "pkg-0.9.egg" ["data", "r.txt"]
          ⟨111, 3, [7, 8, 9]⟩).fs = some f ∧
      f.content.length = (⟨111, 3, [7, 8, 9]⟩ : ZipEntry).file_size ∧
      f.mtime = (⟨111, 3, [7, 8, 9]⟩ : ZipEntry).timestamp) :=
  ⟨by decide,
    (zip_extract_twice [] "/cache" "pkg-0.9.egg" ["data", "r.txt"]
      ⟨111, 3, [7, 8, 9]⟩ (by decide)).2.2.2.2⟩

end PkgResources

namespace PkgResources

/-- C6 counterexample: with the section header exactly
`test: sys_platform=="win32"` (a space after the colon, as the claim
writes it), the conversion does not produce the claimed string
`foo; (sys_platform=="win32") and extra == "test"`: the marker substring
after the colon is parenthesized verbatim, so the space survives inside
the parentheses. -/
theorem convert_sectioned_counterexample :
    ImportlibMetadata._deps_from_requires_text "[test: sys_platform==\"win32\"]\nfoo"
      ≠ ["foo; (sys_platform==\"win32\") and extra == \"test\""] := by
  decide

/-- C6 amended: the legacy sectioned text with header
`test: sys_platform=="win32"` and body `foo` converts to exactly
`foo; ( sys_platform=="win32") and extra == "test"` (the marker text after
the colon, leading space included, is parenthesized and conjoined with the
extra condition); the space-free header `test:sys_platform=="win32"`
produces exactly the string the claim stated. -/
theorem convert_sectioned_amended :
    ImportlibMetadata._deps_from_requires_text "[test: sys_platform==\"win32\"]\nfoo"
      = ["foo; ( sys_platform==\"win32\") and extra == \"test\""] ∧
    ImportlibMetadata._deps_from_requires_text "[test:sys_platform==\"win32\"]\nfoo"
      = ["foo; (sys_platform==\"win32\") and extra == \"test\""] := by
  constructor <;> rfl

/-- C7 counterexample: parsing succeeds with the claimed fields, but
setting an attribute on the resulting `pkg_resources.EntryPoint` does not
fail: the class defines no `__setattr__`, so Python's default assignment
succeeds and the object is mutated. -/
theorem entry_point_mutation_counterexample :
    EntryPoint.parse "foo = pkg.mod:attr [x,y]"
      = .ok ⟨"foo", "pkg.mod", ["attr"], ["x", "y"]⟩ ∧
    EntryPoint.setName ⟨"foo", "pkg.mod", ["attr"], ["x", "y"]⟩ "bar"
      = .ok ⟨"bar", "pkg.mod", ["attr"], ["x", "y"]⟩ := by
  constructor <;> rfl

/-- C7 amended: `EntryPoint.parse("foo = pkg.mod:attr [x,y]")` yields name
`foo`, module `pkg.mod`, attribute path `("attr",)` and extras
`("x","y")`; of the two metadata-reading variants only the
`importlib_metadata` EntryPoint is immutable (its `__setattr__` raises on
every assignment), while the `pkg_resources` EntryPoint accepts attribute
assignment. -/
theorem entry_point_parse_and_immutability :
    EntryPoint.parse "foo = pkg.mod:attr [x,y]"
      = .ok ⟨"foo", "pkg.mod", ["attr"], ["x", "y"]⟩ ∧
    (∀ (ep : ImportlibMetadata.EntryPoint) (a v : String),
      ep.setAttr a v = .error "EntryPoint objects are immutable.") ∧
    (∀ (ep : EntryPoint) (v : String), ep.setName v = .ok { ep with name := v }) :=
  ⟨rfl, fun _ _ _ => rfl, fun _ _ => rfl⟩

/-- C8 counterexample: the path `\foo/bar.txt` uses a backslash separator,
so the claim counts it as invalid and asserts the validation only warns;
the source instead raises `ValueError` for it (the Windows-absolute branch
executes before the warning). -/
theorem validate_resource_path_counterexample :
    _validate_resource_path "\\foo/bar.txt" = .raiseError ∧
    _validate_resource_path "\\foo/bar.txt" ≠ .warn := by
  constructor <;> decide

/-- C8 amended: every invalid resource path (a `..` segment, an absolute
path, or backslash separators) is rejected in one of two ways, never
accepted silently: paths that are Windows-absolute (leading backslash or
`ntpath`-absolute) without being POSIX-absolute raise `ValueError`, and
every other invalid path only gets a deprecation warning. -/
theorem validate_resource_path_amended (path : String)
    (hinv : ((strSplitOnChar '/' path).contains ".." || posixpath_isabs path
        || ntpath_isabs path || strStartsWith path "\\") = true) :
    _validate_resource_path path ≠ .ok ∧
    (_validate_resource_path path = .raiseError ↔
      ((strStartsWith path "\\" || ntpath_isabs path)
        && !(posixpath_isabs path)) = true) ∧
    (_validate_resource_path path = .warn ↔
      ((strStartsWith path "\\" || ntpath_isabs path)
        && !(posixpath_isabs path)) = false) := by
  have hbody : _validate_resource_path path
      = if (strStartsWith path "\\" || ntpath_isabs path) && !(posixpath_isabs path)
        then .raiseError else .warn := by
    simp only [_validate_resource_path]
    rw [hinv]
    rfl
  by_cases hr : ((strStartsWith path "\\" || ntpath_isabs path)
      && !(posixpath_isabs path)) = true
  · refine ⟨?_, ?_, ?_⟩ <;> simp [hbody, hr]
  · rw [Bool.not_eq_true] at hr
    refine ⟨?_, ?_, ?_⟩ <;> simp [hbody, hr]

/-- Witness for `validate_resource_path_amended` at the invalid path
`../secret` (warned, not raised). -/
theorem validate_resource_path_amended_witness :
    (((strSplitOnChar '/' "../secret").contains ".." || posixpath_isabs "../secret"
        || ntpath_isabs "../secret" || strStartsWith "../secret" "\\") = true) ∧
    (_validate_resource_path "../secret" ≠ .ok ∧
      (_validate_resource_path "../secret" = .raiseError ↔
        ((strStartsWith "../secret" "\\" || ntpath_isabs "../secret")
          && !(posixpath_isabs "../secret")) = true) ∧
      (_validate_resource_path "../secret" = .warn ↔
        ((strStartsWith "../secret" "\\" || ntpath_isabs "../secret")
          && !(posixpath_isabs "../secret")) = false)) :=
  ⟨by decide, validate_resource_path_amended "../secret" (by decide)⟩

end PkgResources

namespace PkgResources

/-- C1: on any WorkingSet with no active distribution reachable for key
`pkg` (neither directly nor through the normalized-key alias map),
resolving the single requirement `pkg>=1.0` against the Environment whose
only candidate for that key is `pkg==0.9`, with no installer, fails with
`DistributionNotFound` (with no requirers recorded) and not with a
`VersionConflict`: no candidate for the key is active in the working
set, and the sole environment candidate does not satisfy the
requirement. -/
theorem resolve_only_old_candidate_not_found (ws : WorkingSet) (fuel : Nat)
    (h1 : alookup (· == ·) "pkg" ws.by_key = none)
    (h2 : alookup (· == ·) "pkg" ws.normalized_to_canonical_keys = none) :
    ws.resolve (fuel + 1) [reqPkgGe10] env09 none false none
      = .err (.distributionNotFound reqPkgGe10 none) := by
  have hk : reqPkgGe10.key = "pkg" := rfl
  have hfind : ws.find reqPkgGe10 = .ok none := by
    unfold WorkingSet.find
    have h3 : charReplace '.' '-' (safe_name "pkg") = "pkg" := by decide
    simp [firstSome, hk, h3, h1, h2]
  have hbm : env09.best_match reqPkgGe10 ws none false = .ok none := by
    unfold Environment.best_match
    rw [hfind]
    have hget : env09.get reqPkgGe10.key = [dist09] := by decide
    have hcont : reqPkgGe10.contains (.dist dist09) = false := by decide
    simp [hget, hcont, Environment.obtain]
  have hrd : ws._resolve_dist reqPkgGe10 [] false env09 none [] []
      = .error (.distributionNotFound reqPkgGe10 none) := by
    unfold WorkingSet._resolve_dist
    simp [alookup, hk, h1, hbm]
  show ws.resolveLoop env09 none false none (fuel + 1) [reqPkgGe10].reverse [] [] [] [] []
      = .err (.distributionNotFound reqPkgGe10 none)
  rw [List.reverse_singleton]
  have hmp : markers_pass [] reqPkgGe10 none = true := by decide
  simp [WorkingSet.resolveLoop, hmp, hrd]

/-- Witness for `resolve_only_old_candidate_not_found` on the empty
working set. -/
theorem resolve_only_old_candidate_not_found_witness :
    alookup (· == ·) "pkg" wsEmpty.by_key = none ∧
    alookup (· == ·) "pkg" wsEmpty.normalized_to_canonical_keys = none ∧
    wsEmpty.resolve 1 [reqPkgGe10] env09 none false none
      = .err (.distributionNotFound reqPkgGe10 none) :=
  ⟨rfl, rfl, resolve_only_old_candidate_not_found wsEmpty 0 rfl rfl⟩

/-- C2: on any WorkingSet whose active distribution for key `pkg` is a
distribution `pkg==0.5`, resolving the single requirement `pkg>=1.0` with
`replace_conflicting=False` (against any Environment, which is never
consulted) fails with a `VersionConflict` carrying exactly the active
distribution and the unsatisfied requirement. -/
theorem resolve_active_conflict (ws : WorkingSet) (env : Environment)
    (fuel : Nat) (d : Distribution)
    (h1 : alookup (· == ·) "pkg" ws.by_key = some d)
    (h2 : d.project_name = "pkg") (h3 : d.version = v0_5) :
    ws.resolve (fuel + 1) [reqPkgGe10] env none false none
      = .err (.versionConflict d reqPkgGe10) := by
  have hk : reqPkgGe10.key = "pkg" := rfl
  have hdk : d.key = "pkg" := by
    unfold Distribution.key
    rw [h2]
    decide
  have hcont : reqPkgGe10.contains (.dist d) = false := by
    simp only [Requirement.contains]
    rw [hdk, h3]
    decide
  have hrd : ws._resolve_dist reqPkgGe10 [] false env none [] []
      = .error (.versionConflict d reqPkgGe10) := by
    unfold WorkingSet._resolve_dist
    simp [alookup, hk, h1, hcont, withContext]
  show ws.resolveLoop env none false none (fuel + 1) [reqPkgGe10].reverse [] [] [] [] []
      = .err (.versionConflict d reqPkgGe10)
  rw [List.reverse_singleton]
  have hmp : markers_pass [] reqPkgGe10 none = true := by decide
  simp [WorkingSet.resolveLoop, hmp, hrd]

/-- Witness for `resolve_active_conflict` on a working set holding
`pkg==0.5`. -/
theorem resolve_active_conflict_witness :
    alookup (· == ·) "pkg" (WorkingSet.mk [("pkg", dist05)] []).by_key = some dist05 ∧
    dist05.project_name = "pkg" ∧ dist05.version = v0_5 ∧
    (WorkingSet.mk [("pkg", dist05)] []).resolve 1 [reqPkgGe10] envEmpty none false none
      = .err (.versionConflict dist05 reqPkgGe10) :=
  ⟨by decide, rfl, rfl,
    resolve_active_conflict (WorkingSet.mk [("pkg", dist05)] []) envEmpty 0 dist05
      (by decide) rfl rfl⟩

/-- C9: in `WorkingSet.resolve`, a non-empty `extras` argument replaces
the default empty-string pseudo-extra instead of being added to it: a
marked requirement is evaluated against exactly the extras recorded as
demanding it plus the supplied extras, so the requirement `foo` whose
marker `extra == ""` is satisfiable only at the empty-string pseudo-extra
is skipped (resolution succeeds with nothing to activate) under a
non-empty extras argument not containing the empty string, although it is
processed (here: resolved and failing as not found) when `extras` is
None. -/
theorem resolve_extras_replace_pseudo_extra (re : ReqExtras) (es : List String)
    (fuel : Nat) (hne : es ≠ []) (hnin : "" ∉ es)
    (hrec : alookup Requirement.pyEq reqFooMarker re = none) :
    (∀ (re' : ReqExtras) (req : Requirement) (m : Marker), req.marker = some m →
      markers_pass re' req (some es)
        = (((alookup Requirement.pyEq req re').getD []) ++ es).any
            (fun e => m.evaluate e)) ∧
    markers_pass re reqFooMarker (some es) = false ∧
    markers_pass re reqFooMarker none = true ∧
    wsEmpty.resolve (fuel + 1) [reqFooMarker] envEmpty none false (some es) = .ok [] ∧
    wsEmpty.resolve (fuel + 1) [reqFooMarker] envEmpty none false none
      = .err (.distributionNotFound reqFooMarker none) := by
  obtain ⟨e0, es', rfl⟩ : ∃ e0 es', es = e0 :: es' := by
    cases es with
    | nil => exact absurd rfl hne
    | cons a l => exact ⟨a, l, rfl⟩
  have hgen : ∀ (re' : ReqExtras) (req : Requirement) (m : Marker),
      req.marker = some m →
      markers_pass re' req (some (e0 :: es'))
        = (((alookup Requirement.pyEq req re').getD []) ++ e0 :: es').any
            (fun e => m.evaluate e) := by
    intro re' req m hm
    simp [markers_pass, hm]
  have hskip : ∀ re'' : ReqExtras,
      alookup Requirement.pyEq reqFooMarker re'' = none →
      markers_pass re'' reqFooMarker (some (e0 :: es')) = false := by
    intro re'' hrec'
    rw [hgen re'' reqFooMarker (.extraEq "") rfl, hrec']
    simp only [Option.getD_none, List.nil_append, List.any_eq_false]
    intro x hx
    simp only [Marker.evaluate, beq_iff_eq]
    intro hx0
    exact hnin (hx0 ▸ hx)
  refine ⟨hgen, hskip re hrec, ?_, ?_, ?_⟩
  · simp [markers_pass, reqFooMarker, hrec, Marker.evaluate]
  · show wsEmpty.resolveLoop envEmpty none false (some (e0 :: es')) (fuel + 1)
        [reqFooMarker].reverse [] [] [] [] [] = .ok []
    rw [List.reverse_singleton]
    have h0 : markers_pass [] reqFooMarker (some (e0 :: es')) = false :=
      hskip [] rfl
    simp [WorkingSet.resolveLoop, h0]
  · rfl

/-- Witness for `resolve_extras_replace_pseudo_extra` at the supplied
extras `["x"]`. -/
theorem resolve_extras_replace_pseudo_extra_witness :
    (["x"] ≠ ([] : List String)) ∧ ("" ∉ ["x"]) ∧
    alookup Requirement.pyEq reqFooMarker ([] : ReqExtras) = none ∧
    (markers_pass ([] : ReqExtras) reqFooMarker (some ["x"]) = false ∧
      markers_pass ([] : ReqExtras) reqFooMarker none = true ∧
      wsEmpty.resolve 1 [reqFooMarker] envEmpty none false (some ["x"]) = .ok [] ∧
      wsEmpty.resolve 1 [reqFooMarker] envEmpty none false none
        = .err (.distributionNotFound reqFooMarker none)) :=
  ⟨by decide, by decide, rfl,
    (resolve_extras_replace_pseudo_extra ([] : ReqExtras) ["x"] 0
      (by decide) (by decide) rfl).2⟩

end PkgResources

namespace PkgResources

/-- The `hashcmp` order is reflexive for `hcGe`. -/
theorem hcGe_refl (a : Distribution) : hcGe a a = true := by
  have h : hashcmpCmp a a = .eq := Batteries.OrientedCmp.cmp_refl
  simp [hcGe, h]

/-- Strictly smaller elements sort below: `x < d` gives `d ≥ x`. -/
theorem hcGe_of_lt (x d : Distribution) (h : hashcmpCmp x d = .lt) :
    hcGe d x = true := by
  have hg : hashcmpCmp d x = .gt := Batteries.OrientedCmp.cmp_eq_gt.mpr h
  simp [hcGe, hg]

/-- Failing the strict comparison gives `≥` the other way. -/
theorem hcGe_of_not_lt (x d : Distribution) (h : ¬hashcmpCmp x d = .lt) :
    hcGe x d = true := by
  simpa [hcGe] using h

/-- Transitivity of the descending `hashcmp` order. -/
theorem hcGe_trans (a b c : Distribution) (h1 : hcGe a b = true)
    (h2 : hcGe b c = true) : hcGe a c = true := by
  simp only [hcGe, decide_eq_true_eq] at h1 h2 ⊢
  exact Batteries.TransCmp.ge_trans h1 h2

/-- `insertDesc` permutes to consing. -/
theorem insertDesc_perm (d : Distribution) (l : List Distribution) :
    List.Perm (insertDesc d l) (d :: l) := by
  induction l with
  | nil => exact List.Perm.refl _
  | cons x xs ih =>
    by_cases h : hashcmpCmp x d = .lt
    · simp [insertDesc, h]
    · simp only [insertDesc, if_neg h]
      exact (ih.cons x).trans (List.Perm.swap d x xs)

/-- `sortDesc` is a permutation. -/
theorem sortDesc_perm (l : List Distribution) : List.Perm (sortDesc l) l := by
  induction l with
  | nil => exact List.Perm.refl _
  | cons x xs ih => exact (insertDesc_perm x (sortDesc xs)).trans (ih.cons x)

/-- Inserting into a descending chain keeps it a descending chain, and the
new head is the inserted element or the old head. -/
theorem insertDesc_sorted (d : Distribution) (l : List Distribution)
    (h : SortedDesc l) :
    SortedDesc (insertDesc d l) ∧
      (∀ y, (insertDesc d l).head? = some y → y = d ∨ l.head? = some y) := by
  induction l with
  | nil =>
    refine ⟨List.chain'_singleton d, fun y hy => .inl ?_⟩
    simp only [insertDesc, List.head?_cons, Option.some.injEq] at hy
    exact hy.symm
  | cons x xs ih =>
    rw [SortedDesc, List.chain'_cons'] at h
    obtain ⟨hx, hxs⟩ := h
    by_cases hcmp : hashcmpCmp x d = .lt
    · constructor
      · simp only [insertDesc, if_pos hcmp]
        rw [SortedDesc, List.chain'_cons']
        refine ⟨?_, List.chain'_cons'.mpr ⟨hx, hxs⟩⟩
        intro b hb
        simp only [List.head?_cons, Option.mem_def, Option.some.injEq] at hb
        rw [← hb]
        exact hcGe_of_lt x d hcmp
      · intro y hy
        simp only [insertDesc, if_pos hcmp, List.head?_cons, Option.some.injEq] at hy
        exact .inl hy.symm
    · obtain ⟨ihs, ihh⟩ := ih hxs
      constructor
      · simp only [insertDesc, if_neg hcmp]
        rw [SortedDesc, List.chain'_cons']
        refine ⟨?_, ihs⟩
        intro b hb
        rcases ihh b hb with rfl | hb'
        · exact hcGe_of_not_lt x b hcmp
        · exact hx b hb'
      · intro y hy
        simp only [insertDesc, if_neg hcmp, List.head?_cons, Option.some.injEq] at hy
        exact .inr (by rw [List.head?_cons, hy])

/-- Insertion sort always yields a descending chain. -/
theorem sortDesc_sorted (l : List Distribution) : SortedDesc (sortDesc l) := by
  induction l with
  | nil => exact List.chain'_nil
  | cons x xs ih => exact (insertDesc_sorted x (sortDesc xs) ih).1

/-- In a descending chain the head dominates every member. -/
theorem sortedDesc_head_ge (l : List Distribution) :
    SortedDesc l → ∀ a, l.head? = some a → ∀ x ∈ l, hcGe a x = true := by
  induction l with
  | nil => intro _ a ha; cases ha
  | cons b t ih =>
    intro h a ha x hx
    have hba : b = a := by simpa using ha
    rw [← hba]
    rw [SortedDesc, List.chain'_cons'] at h
    rcases List.mem_cons.mp hx with rfl | hxt
    · exact hcGe_refl _
    · cases t with
      | nil => cases hxt
      | cons c t' =>
        exact hcGe_trans _ c x (h.1 c rfl) (ih h.2 c rfl x hxt)

/-- Python Distribution equality is symmetric (tuple equality). -/
theorem distPyEq_symm (a b : Distribution) : a.pyEq b = b.pyEq a := by
  simp [Distribution.pyEq, eq_comm]

/-- Python Distribution equality is reflexive. -/
theorem distPyEq_refl (a : Distribution) : a.pyEq a = true := by
  simp [Distribution.pyEq]

/-- Members of `aset` are the new pair or old members. -/
theorem mem_aset [BEq κ] [LawfulBEq κ] (k : κ) (v : β) (l : List (κ × β)) (p : κ × β) :
    p ∈ aset (· == ·) k v l → p = (k, v) ∨ p ∈ l := by
  induction l with
  | nil =>
    intro hp
    simp only [aset, List.mem_singleton] at hp
    exact .inl hp
  | cons q rest ih =>
    intro hp
    simp only [aset] at hp
    by_cases h : (q.1 == k) = true
    · rw [if_pos h] at hp
      rcases List.mem_cons.mp hp with rfl | hrest
      · exact .inl (by rw [eq_of_beq h])
      · exact .inr (List.mem_cons_of_mem q hrest)
    · rw [if_neg h] at hp
      rcases List.mem_cons.mp hp with rfl | hrest
      · exact .inr (List.mem_cons_self _ rest)
      · rcases ih hrest with h1 | h2
        · exact .inl h1
        · exact .inr (List.mem_cons_of_mem q h2)

/-- A successful `alookup` result is a stored entry. -/
theorem alookup_mem [BEq κ] [LawfulBEq κ] (k : κ) (l : List (κ × β)) (v : β) :
    alookup (· == ·) k l = some v → (k, v) ∈ l := by
  induction l with
  | nil => intro h; simp [alookup] at h
  | cons q rest ih =>
    intro h
    simp only [alookup] at h
    by_cases hq : (q.1 == k) = true
    · rw [if_pos hq] at h
      have hv : v = q.2 := (Option.some.inj h).symm
      have hk : q.1 = k := eq_of_beq hq
      have hkv : (k, v) = q := by rw [hv, ← hk]
      rw [hkv]
      exact List.mem_cons_self q rest
    · rw [if_neg hq] at h
      exact List.mem_cons_of_mem q (ih h)

/-- C4: `Environment.add` preserves the per-key invariant: every stored
distribution passed `can_add` and `has_version` at insertion time, no
list contains duplicates by Distribution equality, and every list is
sorted descending by the `hashcmp` ordering tuple — and consequently, in
the resulting environment, the head of every per-key list dominates the
whole list in the `hashcmp` order (it is the best candidate). -/
theorem environment_add_inv (env : Environment) (dist : Distribution)
    (hinv : env.Inv) :
    (env.add dist).Inv ∧
    ∀ p ∈ (env.add dist).distmap, ∀ a, p.2.head? = some a →
      ∀ x ∈ p.2, hcGe a x = true := by
  have hmain : (env.add dist).Inv := by
    simp only [Environment.add]
    by_cases hguard : (env.can_add dist && dist.has_version) = true
    · rw [if_pos hguard]
      by_cases hdup :
          (((alookup (· == ·) dist.key env.distmap).getD []).any
            fun x => x.pyEq dist) = true
      · rw [if_pos hdup]
        exact hinv
      · rw [if_neg hdup]
        intro p hp
        rcases mem_aset dist.key _ env.distmap p hp with hnew | hold
        · have hmemdists : ∀ d' ∈ (alookup (· == ·) dist.key env.distmap).getD [],
              env.can_add d' = true ∧ d'.has_version = true := by
            intro d' hd'
            match halo : alookup (· == ·) dist.key env.distmap with
            | none => rw [halo] at hd'; cases hd'
            | some l0 =>
              rw [halo] at hd'
              exact ((hinv _ (alookup_mem dist.key env.distmap l0 halo)).1) d'
                (by simpa using hd')
          have hnodup : ((alookup (· == ·) dist.key env.distmap).getD
              []).Pairwise (fun a b => a.pyEq b = false) := by
            match halo : alookup (· == ·) dist.key env.distmap with
            | none => simp
            | some l0 =>
              simpa using
                (hinv _ (alookup_mem dist.key env.distmap l0 halo)).2.1
          rw [hnew]
          refine ⟨?_, ?_, sortDesc_sorted _⟩
          · intro d' hd'
            have hd2 : d' ∈ ((alookup (· == ·) dist.key env.distmap).getD []
                ++ [dist]) := (sortDesc_perm _).mem_iff.mp hd'
            rcases List.mem_append.mp hd2 with hl | hr
            · exact hmemdists d' hl
            · obtain rfl := List.mem_singleton.mp hr
              have hg : env.can_add d' = true ∧ d'.has_version = true := by
                simpa [Bool.and_eq_true] using hguard
              exact hg
          · refine ((sortDesc_perm _).pairwise_iff ?_).mpr ?_
            · intro a b hab
              rw [distPyEq_symm]
              exact hab
            · rw [List.pairwise_append]
              refine ⟨hnodup, List.pairwise_singleton _ _, ?_⟩
              intro a ha b hb
              obtain rfl := List.mem_singleton.mp hb
              have := List.any_eq_false.mp (Bool.eq_false_iff.mpr hdup) a ha
              simpa using this
        · exact hinv p hold
    · rw [if_neg hguard]
      exact hinv
  refine ⟨hmain, ?_⟩
  intro p hp a ha x hx
  exact sortedDesc_head_ge p.2 (hmain p hp).2.2 a ha x hx

/-- Witness for `environment_add_inv`: adding `pkg==0.9` to the empty
environment. -/
theorem environment_add_inv_witness :
    envEmpty.Inv ∧
    ((envEmpty.add dist09).Inv ∧
      ∀ p ∈ (envEmpty.add dist09).distmap, ∀ a, p.2.head? = some a →
        ∀ x ∈ p.2, hcGe a x = true) := by
  have hempty : envEmpty.Inv := by
    intro p hp
    simp [envEmpty] at hp
  exact ⟨hempty, environment_add_inv envEmpty dist09 hempty⟩

end PkgResources

namespace PkgResources

/-- Lookup after `aset`: the set key reads the new value, others are
unchanged. -/
theorem alookup_aset_cases [BEq κ] [LawfulBEq κ] [DecidableEq κ] (k k' : κ) (v : β)
    (l : List (κ × β)) :
    alookup (· == ·) k' (aset (· == ·) k v l)
      = if k' = k then some v else alookup (· == ·) k' l := by
  by_cases h : k' = k
  · rw [if_pos h, h]
    exact alookup_aset_self k v l
  · rw [if_neg h]
    induction l with
    | nil =>
      simp only [aset, alookup]
      rw [if_neg (by simp [Ne.symm h])]
    | cons q rest ih =>
      simp only [aset]
      by_cases hq : (q.1 == k) = true
      · rw [if_pos hq]
        have hkk : q.1 = k := eq_of_beq hq
        have hne : (q.1 == k') = false := by
          rw [hkk]
          exact beq_eq_false_iff_ne.mpr (Ne.symm h)
        simp only [alookup, hne]
        rw [if_neg (by simp), if_neg (by simp [hne, hkk, Ne.symm h])]
      · rw [if_neg hq]
        simp only [alookup]
        by_cases hq' : (q.1 == k') = true
        · rw [if_pos hq', if_pos hq']
        · rw [if_neg hq', if_neg hq', ih]

/-- `Environment.add` never changes the platform/python filters. -/
theorem add_fields (env : Environment) (d : Distribution) :
    (env.add d).platform = env.platform ∧ (env.add d).python = env.python := by
  simp only [Environment.add]
  by_cases hguard : (env.can_add d && d.has_version) = true
  · rw [if_pos hguard]
    by_cases hdup : (((alookup (· == ·) d.key env.distmap).getD []).any
        fun x => x.pyEq d) = true
    · rw [if_pos hdup]
      exact ⟨rfl, rfl⟩
    · rw [if_neg hdup]
      exact ⟨rfl, rfl⟩
  · rw [if_neg hguard]
    exact ⟨rfl, rfl⟩

/-- Folding `add` over a list never changes the platform/python filters. -/
theorem foldl_add_fields (l : List Distribution) :
    ∀ env : Environment,
      ((l.foldl (fun a d => a.add d) env).platform = env.platform ∧
        (l.foldl (fun a d => a.add d) env).python = env.python) := by
  induction l with
  | nil => intro env; exact ⟨rfl, rfl⟩
  | cons x xs ih =>
    intro env
    rw [List.foldl_cons]
    exact ⟨(ih (env.add x)).1.trans (add_fields env x).1,
      (ih (env.add x)).2.trans (add_fields env x).2⟩

/-- Folding whole map entries through `add` never changes the
platform/python filters. -/
theorem entries_fold_fields (other : Environment)
    (entries : List (String × List Distribution)) :
    ∀ env : Environment,
      ((entries.foldl
          (fun acc p => (other.get p.1).foldl (fun a d => a.add d) acc)
          env).platform = env.platform ∧
        (entries.foldl
          (fun acc p => (other.get p.1).foldl (fun a d => a.add d) acc)
          env).python = env.python) := by
  induction entries with
  | nil => intro env; exact ⟨rfl, rfl⟩
  | cons e es ih =>
    intro env
    rw [List.foldl_cons]
    refine ⟨(ih _).1.trans (foldl_add_fields (other.get e.1) env).1,
      (ih _).2.trans (foldl_add_fields (other.get e.1) env).2⟩

/-- With both filters set to None, `can_add` accepts everything. -/
theorem can_add_none (env : Environment) (hplat : env.platform = none)
    (hpy : env.python = none) (d : Distribution) : env.can_add d = true := by
  unfold Environment.can_add
  rw [hplat, hpy]
  cases d.platform <;> simp [compatible_platforms]

/-- `Environment.add` preserves membership in every per-key list (viewed
through `__getitem__`). -/
theorem add_get_preserve (env : Environment) (d d' : Distribution) (s : String)
    (h : d' ∈ env.get s) : d' ∈ (env.add d).get s := by
  simp only [Environment.add]
  by_cases hguard : (env.can_add d && d.has_version) = true
  · rw [if_pos hguard]
    by_cases hdup : (((alookup (· == ·) d.key env.distmap).getD []).any
        fun x => x.pyEq d) = true
    · rw [if_pos hdup]
      exact h
    · rw [if_neg hdup]
      show d' ∈ (alookup (· == ·) (strToLower s)
        (aset (· == ·) d.key _ env.distmap)).getD []
      rw [alookup_aset_cases]
      by_cases hk : strToLower s = d.key
      · rw [if_pos hk]
        have h2 : d' ∈ (alookup (· == ·) d.key env.distmap).getD [] := by
          unfold Environment.get at h
          rw [hk] at h
          exact h
        simp only [Option.getD_some]
        exact (sortDesc_perm _).mem_iff.mpr (List.mem_append_left _ h2)
      · rw [if_neg hk]
        exact h
  · rw [if_neg hguard]
    exact h

/-- Folding `add` preserves per-key membership. -/
theorem foldl_add_get_preserve (l : List Distribution) (s : String)
    (d' : Distribution) :
    ∀ env : Environment, d' ∈ env.get s →
      d' ∈ ((l.foldl (fun a d => a.add d) env).get s) := by
  induction l with
  | nil => intro env h; exact h
  | cons x xs ih =>
    intro env h
    rw [List.foldl_cons]
    exact ih (env.add x) (add_get_preserve env x d' s h)

/-- Folding map entries preserves per-key membership. -/
theorem entries_fold_get_preserve (other : Environment)
    (entries : List (String × List Distribution)) (s : String)
    (d' : Distribution) :
    ∀ env : Environment, d' ∈ env.get s →
      d' ∈ ((entries.foldl
        (fun acc p => (other.get p.1).foldl (fun a d => a.add d) acc)
        env).get s) := by
  induction entries with
  | nil => intro env h; exact h
  | cons e es ih =>
    intro env h
    rw [List.foldl_cons]
    exact ih _ (foldl_add_get_preserve (other.get e.1) s d' env h)

/-- Adding an acceptable distribution makes it (or an equal one) present
under its own project name. -/
theorem add_mem_self (env : Environment) (d : Distribution)
    (hca : env.can_add d = true) (hv : d.has_version = true) :
    ∃ d', d'.pyEq d = true ∧ d' ∈ (env.add d).get d.project_name := by
  simp only [Environment.add]
  rw [if_pos (by rw [hca, hv]; rfl)]
  by_cases hdup : (((alookup (· == ·) d.key env.distmap).getD []).any
      fun x => x.pyEq d) = true
  · rw [if_pos hdup]
    obtain ⟨x, hx, hxeq⟩ := List.any_eq_true.mp hdup
    exact ⟨x, hxeq, hx⟩
  · rw [if_neg hdup]
    refine ⟨d, distPyEq_refl d, ?_⟩
    show d ∈ (alookup (· == ·) (strToLower d.project_name)
      (aset (· == ·) d.key _ env.distmap)).getD []
    have hkey : strToLower d.project_name = d.key := rfl
    rw [hkey, alookup_aset_self]
    simp only [Option.getD_some]
    exact (sortDesc_perm _).mem_iff.mpr
      (List.mem_append_right _ (List.mem_singleton.mpr rfl))

/-- Folding `add` over a list containing `d` (on an unfiltered
environment) admits `d` under its project name. -/
theorem foldl_add_mem (l : List Distribution) (d : Distribution)
    (hv : d.has_version = true) :
    ∀ env : Environment, env.platform = none → env.python = none → d ∈ l →
      ∃ d', d'.pyEq d = true ∧
        d' ∈ ((l.foldl (fun a x => a.add x) env).get d.project_name) := by
  induction l with
  | nil => intro env _ _ hd; cases hd
  | cons x xs ih =>
    intro env hplat hpy hd
    rw [List.foldl_cons]
    rcases List.mem_cons.mp hd with rfl | hd'
    · obtain ⟨d', hde, hdm⟩ := add_mem_self env d (can_add_none env hplat hpy d) hv
      exact ⟨d', hde, foldl_add_get_preserve xs d.project_name d' (env.add d) hdm⟩
    · exact ih (env.add x) ((add_fields env x).1.trans hplat)
        ((add_fields env x).2.trans hpy) hd'

/-- Lookup of a stored entry when keys are pairwise distinct. -/
theorem alookup_of_mem_nodupkeys [BEq κ] [LawfulBEq κ]
    (l : List (κ × β)) :
    l.Pairwise (fun p q => p.1 ≠ q.1) → ∀ p ∈ l,
      alookup (· == ·) p.1 l = some p.2 := by
  induction l with
  | nil => intro _ p hp; cases hp
  | cons q rest ih =>
    intro hnd p hp
    rcases List.mem_cons.mp hp with rfl | hp'
    · simp [alookup]
    · have hne : q.1 ≠ p.1 := (List.pairwise_cons.mp hnd).1 p hp'
      simp only [alookup]
      rw [if_neg (by simp [hne])]
      exact ih (List.pairwise_cons.mp hnd).2 p hp'

/-- Under `KeysWF`, `__getitem__` of a stored key returns its list. -/
theorem get_of_keysWF (other : Environment) (hwf : other.KeysWF)
    (p : String × List Distribution) (hp : p ∈ other.distmap) :
    other.get p.1 = p.2 := by
  unfold Environment.get
  rw [hwf.2 p hp, alookup_of_mem_nodupkeys other.distmap hwf.1 p hp]
  rfl

/-- Decomposition of `allDists` membership. -/
theorem mem_allDists (env : Environment) (d : Distribution)
    (h : d ∈ env.allDists) : ∃ p ∈ env.distmap, d ∈ p.2 := by
  unfold Environment.allDists at h
  obtain ⟨l, hl, hdl⟩ := List.mem_flatten.mp h
  obtain ⟨p, hp, rfl⟩ := List.mem_map.mp hl
  exact ⟨p, hp, hdl⟩

/-- Folding the entries of `other` admits every distribution of an entry
whose list `__getitem__` recovers. -/
theorem entries_fold_mem (other : Environment)
    (p : String × List Distribution) (d : Distribution)
    (hv : d.has_version = true) (hget : other.get p.1 = p.2) (hdp : d ∈ p.2) :
    ∀ entries : List (String × List Distribution), p ∈ entries →
    ∀ env : Environment, env.platform = none → env.python = none →
      ∃ d', d'.pyEq d = true ∧
        d' ∈ ((entries.foldl
          (fun acc q => (other.get q.1).foldl (fun a x => a.add x) acc)
          env).get d.project_name) := by
  intro entries
  induction entries with
  | nil => intro h; cases h
  | cons e es ih =>
    intro hpe env hplat hpy
    rw [List.foldl_cons]
    rcases List.mem_cons.mp hpe with rfl | hpe'
    · obtain ⟨d', hde, hdm⟩ := foldl_add_mem (other.get p.1) d hv env hplat hpy
        (by rw [hget]; exact hdp)
      exact ⟨d', hde,
        entries_fold_get_preserve other es d.project_name d' _ hdm⟩
    · exact ih hpe' _
        ((foldl_add_fields (other.get e.1) env).1.trans hplat)
        ((foldl_add_fields (other.get e.1) env).2.trans hpy)

/-- C10: `Environment.__add__` builds the combined environment with
`platform=None` and `python=None`, so the combination performs no
platform or Python-version filtering (`can_add` accepts every
distribution, including any the operands' own checks would reject), and
every distribution of either well-formed operand whose version metadata
parses is admitted into the combined environment under its project
name (up to Python Distribution equality). -/
theorem environment_hAdd_unfiltered (env : Environment) (other : DistOrEnv)
    (henv : env.KeysWF) (hother : other.wf) :
    (env.hAdd other).platform = none ∧
    (env.hAdd other).python = none ∧
    (∀ d, (env.hAdd other).can_add d = true) ∧
    (∀ d, (d ∈ env.allDists ∨ d ∈ other.dists) → d.has_version = true →
      ∃ d', d'.pyEq d = true ∧ d' ∈ (env.hAdd other).get d.project_name) := by
  have hbase : (Environment.mk [] none none).platform = none ∧
      (Environment.mk [] none none).python = none := ⟨rfl, rfl⟩
  have hnew1 : ((Environment.mk [] none none).iaddEnv env).platform = none ∧
      ((Environment.mk [] none none).iaddEnv env).python = none := by
    unfold Environment.iaddEnv
    exact ⟨(entries_fold_fields env env.distmap _).1.trans hbase.1,
      (entries_fold_fields env env.distmap _).2.trans hbase.2⟩
  have hfields : (env.hAdd other).platform = none ∧
      (env.hAdd other).python = none := by
    unfold Environment.hAdd
    match other with
    | .dist d =>
      exact ⟨(add_fields _ d).1.trans hnew1.1, (add_fields _ d).2.trans hnew1.2⟩
    | .env o =>
      unfold Environment.iaddEnv
      exact ⟨(entries_fold_fields o o.distmap _).1.trans hnew1.1,
        (entries_fold_fields o o.distmap _).2.trans hnew1.2⟩
  refine ⟨hfields.1, hfields.2, fun d => can_add_none _ hfields.1 hfields.2 d, ?_⟩
  intro d hd hv
  have hmem1 : d ∈ env.allDists →
      ∃ d', d'.pyEq d = true ∧
        d' ∈ (((Environment.mk [] none none).iaddEnv env).get d.project_name) := by
    intro hda
    obtain ⟨p, hp, hdp⟩ := mem_allDists env d hda
    exact entries_fold_mem env p d hv (get_of_keysWF env henv p hp) hdp
      env.distmap hp _ hbase.1 hbase.2
  rcases hd with hda | hdo
  · obtain ⟨d', hde, hdm⟩ := hmem1 hda
    refine ⟨d', hde, ?_⟩
    unfold Environment.hAdd
    match other with
    | .dist d0 => exact add_get_preserve _ d0 d' d.project_name hdm
    | .env o =>
      unfold Environment.iaddEnv
      exact entries_fold_get_preserve o o.distmap d.project_name d' _ hdm
  · unfold Environment.hAdd
    match other with
    | .dist d0 =>
      obtain rfl : d = d0 := by simpa [DistOrEnv.dists] using hdo
      exact add_mem_self _ d (can_add_none _ hnew1.1 hnew1.2 d) hv
    | .env o =>
      have hdo' : d ∈ o.allDists := by simpa [DistOrEnv.dists] using hdo
      obtain ⟨p, hp, hdp⟩ := mem_allDists o d hdo'
      unfold Environment.iaddEnv
      exact entries_fold_mem o p d hv (get_of_keysWF o hother p hp) hdp
        o.distmap hp _ hnew1.1 hnew1.2

/-- Witness for `environment_hAdd_unfiltered`: the empty environment plus
the single distribution `pkg==0.9`. -/
theorem environment_hAdd_unfiltered_witness :
    envEmpty.KeysWF ∧ (DistOrEnv.dist dist09).wf ∧
    ((envEmpty.hAdd (.dist dist09)).platform = none ∧
      (envEmpty.hAdd (.dist dist09)).python = none ∧
      (∀ d, (envEmpty.hAdd (.dist dist09)).can_add d = true) ∧
      (∀ d, (d ∈ envEmpty.allDists ∨ d ∈ (DistOrEnv.dist dist09).dists) →
        d.has_version = true →
        ∃ d', d'.pyEq d = true ∧
          d' ∈ (envEmpty.hAdd (.dist dist09)).get d.project_name)) := by
  have h1 : envEmpty.KeysWF := by
    constructor
    · exact List.Pairwise.nil
    · intro p hp
      simp [envEmpty] at hp
  exact ⟨h1, trivial, environment_hAdd_unfiltered envEmpty (.dist dist09) h1 trivial⟩

end PkgResources
